import Mathlib

/-!
Verification of the open_clip loss module (src/open_clip/loss.py).

The Python module is embedded shallowly:

* A feature batch (a 2-D tensor of shape (rows, dim)) is a `List (List α)`,
  one inner list per row.  The algebraic layer (gather, matrix products,
  transposes, labels) is polymorphic over a commutative ring so that
  witnesses can be evaluated over `ℤ`; the analytic layer (softmax,
  cross-entropy) is over `ℝ`.
* The distributed world is modelled by a family `F : ℕ → List (List α)`
  mapping each rank to the feature batch that worker holds; the all-gather
  primitives are assumed (per their contract) to deliver exactly
  `F 0, F 1, ...` in ascending rank order, and the local tensor argument
  `features_a` of `gather_features` is `F rank`.
* Python `assert` failures and the unbound-local error in
  `ClipLoss.forward` become values of `PyErr` carried by `Except`.
* The mutable label cache (`self.prev_num_logits`, `self.labels`) becomes
  an explicit `LossState` threaded through the functions; the Python dict
  is an association list with most-recent-insertion-first lookup.
-/

set_option maxHeartbeats 1000000

deriving instance DecidableEq for Except

/-- Errors a call into the module can raise. -/
inductive PyErr where
  | unboundLocal : PyErr
  | assertionError : String → PyErr
  deriving DecidableEq

/-- Import-time facts about the process: whether `torch.distributed` imported
and whether `horovod.torch` imported (`has_distributed` and `hvd is not None`
in the source). -/
structure DistEnv where
  hasDistributed : Bool
  hvdOk : Bool
  deriving DecidableEq

/-- The constructor arguments of `ClipLoss` that configure the loss. -/
structure ClipCfg where
  localLoss : Bool
  gatherWithGrad : Bool
  cacheLabels : Bool
  rank : ℕ
  worldSize : ℕ
  useHorovod : Bool
  deriving DecidableEq

/-- `torch.cat(blocks, dim=0)` on a list of row-blocks. -/
def torchCat (blocks : List (List α)) : List α := blocks.flatten

/-- Rows `[r*b, (r+1)*b)` of a tensor: row-block `r` for block size `b`. -/
def rowBlock (xs : List α) (b r : ℕ) : List α := (xs.drop (r * b)).take b

/-- `tensor.chunk(w, dim=0)`: split into `w` chunks of size `⌈len/w⌉`
(modelled for the evenly divisible case, which is the only one reached
under the equal-batch precondition of the module). -/
def torchChunk (xs : List α) (w : ℕ) : List (List α) :=
  (List.range w).map (fun i => rowBlock xs ((xs.length + w - 1) / w) i)

/-- The list of per-rank tensors an all-gather delivers
(`torch.distributed.nn.all_gather` / the buffers filled by
`dist.all_gather`), ordered by ascending rank per the collective contract. -/
def allGatherList (w : ℕ) (f : ℕ → List α) : List (List α) :=
  (List.range w).map f

/-- `hvd.allgather`: the rank-ordered concatenation along dim 0. -/
def hvdAllgather (w : ℕ) (f : ℕ → List α) : List α :=
  torchCat (allGatherList w f)

/-- `gather_features` from loss.py.  `FA`/`FB` give every worker's local
`features_a`/`features_b`; the caller is the worker of rank `rank`, so its
local tensors are `FA rank` and `FB rank`. -/
def gatherFeatures (env : DistEnv) (localLoss gatherWithGrad : Bool)
    (rank worldSize : ℕ) (useHorovod : Bool)
    (FA FB : ℕ → List (List α)) :
    Except PyErr (List (List α) × List (List α)) :=
  if env.hasDistributed = false then
    .error (.assertionError
      ("torch.distributed did not import correctly, please use a PyTorch version with support."))
  else if useHorovod then
    if env.hvdOk = false then
      .error (.assertionError ("Please install horovod"))
    else if gatherWithGrad then
      .ok (hvdAllgather worldSize FA, hvdAllgather worldSize FB)
    else
      -- gather under no_grad, then splice the local tensors back in
      let allA := hvdAllgather worldSize FA
      let allB := hvdAllgather worldSize FB
      if localLoss = false then
        let ga := (torchChunk allA worldSize).set rank (FA rank)
        let gb := (torchChunk allB worldSize).set rank (FB rank)
        .ok (torchCat ga, torchCat gb)
      else
        .ok (allA, allB)
  else
    if gatherWithGrad then
      .ok (torchCat (allGatherList worldSize FA),
           torchCat (allGatherList worldSize FB))
    else
      let ga := allGatherList worldSize FA
      let gb := allGatherList worldSize FB
      let ga2 := if localLoss = false then ga.set rank (FA rank) else ga
      let gb2 := if localLoss = false then gb.set rank (FB rank) else gb
      .ok (torchCat ga2, torchCat gb2)

theorem rowBlock_join (bs : List (List α)) (b : ℕ)
    (hb : ∀ x ∈ bs, x.length = b) :
    ∀ r, r < bs.length → rowBlock bs.flatten b r = bs.getD r [] := by
  induction bs with
  | nil => intro r hr; simp at hr
  | cons x t ih =>
    intro r hr
    cases r with
    | zero =>
      have hx : x.length = b := hb x (by simp)
      simp only [rowBlock, List.flatten_cons, Nat.zero_mul, List.drop_zero,
        List.getD_cons_zero]
      exact List.take_left' hx
    | succ r =>
      have hx : x.length = b := hb x (by simp)
      have ht : ∀ y ∈ t, y.length = b := fun y hy => hb y (by simp [hy])
      have hr' : r < t.length := by simpa using hr
      have hdrop : (x ++ t.flatten).drop (b + r * b) = t.flatten.drop (r * b) := by
        rw [← List.drop_drop]
        congr 1
        rw [← hx]
        exact List.drop_left x t.flatten
      simp only [rowBlock, List.flatten_cons, List.getD_cons_succ]
      rw [Nat.succ_mul, Nat.add_comm (r * b) b, hdrop]
      exact ih ht r hr'

theorem length_join_eq (bs : List (List α)) (b : ℕ)
    (hb : ∀ x ∈ bs, x.length = b) : bs.flatten.length = bs.length * b := by
  induction bs with
  | nil => simp
  | cons x t ih =>
    have hx : x.length = b := hb x (by simp)
    have ht : ∀ y ∈ t, y.length = b := fun y hy => hb y (by simp [hy])
    simp [List.length_append, hx, ih ht, Nat.succ_mul, Nat.add_comm]

theorem torchChunk_join (bs : List (List α)) (w b : ℕ)
    (hw : bs.length = w) (hb : ∀ x ∈ bs, x.length = b) :
    torchChunk bs.flatten w = bs := by
  cases Nat.eq_zero_or_pos w with
  | inl h0 =>
    subst h0
    have : bs = [] := List.length_eq_zero.mp hw
    simp [this, torchChunk]
  | inr hpos =>
    have hlen : bs.flatten.length = w * b := by rw [length_join_eq bs b hb, hw]
    have hchunk : (bs.flatten.length + w - 1) / w = b := by
      rw [hlen]
      have h1 : w * b + w - 1 = w - 1 + b * w := by
        rw [Nat.mul_comm w b]
        omega
      rw [h1, Nat.add_mul_div_right _ _ hpos, Nat.div_eq_of_lt (by omega)]
      simp
    apply List.ext_getElem
    · simp [torchChunk, hw]
    · intro i h1 h2
      have hi : i < w := by simpa [torchChunk] using h1
      have hibs : i < bs.length := by omega
      simp only [torchChunk, List.getElem_map, List.getElem_range]
      rw [hchunk, rowBlock_join bs b hb i hibs, List.getD_eq_getElem _ _ hibs]

theorem set_self_of_getD (l : List α) (n : ℕ) (a : α) (d : α)
    (hn : n < l.length) (ha : a = l.getD n d) : l.set n a = l := by
  apply List.ext_getElem
  · simp
  · intro i h1 h2
    rw [List.getElem_set]
    split
    · next h => subst h; rw [ha, List.getD_eq_getElem _ _ hn]
    · rfl

theorem allGatherList_getD (w : ℕ) (f : ℕ → List (List α)) (r : ℕ)
    (hr : r < w) : (allGatherList w f).getD r [] = f r := by
  rw [allGatherList, List.getD_eq_getElem _ _ (by simpa using hr)]
  simp

/-- All four gather strategies produce, in value semantics, the rank-ordered
concatenation of every worker's batch (the gradient-splicing `set` writes a
value already present at that slot). -/
theorem gatherFeatures_eq_cat (env : DistEnv) (localLoss gatherWithGrad : Bool)
    (rank worldSize : ℕ) (useHorovod : Bool)
    (FA FB : ℕ → List (List α)) (b : ℕ)
    (hd : env.hasDistributed = true)
    (hh : useHorovod = true → env.hvdOk = true)
    (hrank : rank < worldSize)
    (hA : ∀ i, i < worldSize → (FA i).length = b)
    (hB : ∀ i, i < worldSize → (FB i).length = b) :
    gatherFeatures env localLoss gatherWithGrad rank worldSize useHorovod FA FB =
      .ok (torchCat (allGatherList worldSize FA),
           torchCat (allGatherList worldSize FB)) := by
  have hlA : rank < (allGatherList worldSize FA).length := by
    simpa [allGatherList] using hrank
  have hlB : rank < (allGatherList worldSize FB).length := by
    simpa [allGatherList] using hrank
  have hsetA : (allGatherList worldSize FA).set rank (FA rank) =
      allGatherList worldSize FA := by
    rw [← allGatherList_getD worldSize FA rank hrank]
    exact set_self_of_getD _ _ _ _ hlA rfl
  have hsetB : (allGatherList worldSize FB).set rank (FB rank) =
      allGatherList worldSize FB := by
    rw [← allGatherList_getD worldSize FB rank hrank]
    exact set_self_of_getD _ _ _ _ hlB rfl
  have hmemA : ∀ x ∈ allGatherList worldSize FA, x.length = b := by
    intro x hx
    simp only [allGatherList, List.mem_map, List.mem_range] at hx
    obtain ⟨i, hi, rfl⟩ := hx
    exact hA i hi
  have hmemB : ∀ x ∈ allGatherList worldSize FB, x.length = b := by
    intro x hx
    simp only [allGatherList, List.mem_map, List.mem_range] at hx
    obtain ⟨i, hi, rfl⟩ := hx
    exact hB i hi
  have hchunkA : torchChunk (hvdAllgather worldSize FA) worldSize =
      allGatherList worldSize FA := by
    apply torchChunk_join _ _ b (by simp [allGatherList]) hmemA
  have hchunkB : torchChunk (hvdAllgather worldSize FB) worldSize =
      allGatherList worldSize FB := by
    apply torchChunk_join _ _ b (by simp [allGatherList]) hmemB
  unfold gatherFeatures
  rw [hd]
  cases useHorovod with
  | false =>
    cases gatherWithGrad with
    | false =>
      cases localLoss with
      | false => simp [hsetA, hsetB]
      | true => simp
    | true => simp
  | true =>
    rw [hh rfl]
    cases gatherWithGrad with
    | false =>
      cases localLoss with
      | false =>
        simp only [Bool.false_eq_true, if_false, if_true, hchunkA, hchunkB,
          hsetA, hsetB]
        simp [hvdAllgather]
      | true => simp [hvdAllgather]
    | true => simp [hvdAllgather]

/-- C1: for every gather strategy (generic or horovod backend, with or
without gather_with_grad, with or without local_loss) and every rank
`r < worldSize`, row-block `r` of each of the two tensors returned by
`gather_features` equals worker r's local input batch for that modality,
assuming the all-gather primitive delivers rank-ordered outputs (built into
the model) and all workers hold batches of the same row count `b`. -/
theorem gather_features_rank_block (env : DistEnv)
    (localLoss gatherWithGrad : Bool) (rank worldSize : ℕ)
    (useHorovod : Bool) (FA FB : ℕ → List (List α)) (b : ℕ)
    (ga gb : List (List α))
    (hok : gatherFeatures env localLoss gatherWithGrad rank worldSize
      useHorovod FA FB = .ok (ga, gb))
    (hrank : rank < worldSize)
    (hA : ∀ i, i < worldSize → (FA i).length = b)
    (hB : ∀ i, i < worldSize → (FB i).length = b) :
    ∀ r, r < worldSize → rowBlock ga b r = FA r ∧ rowBlock gb b r = FB r := by
  have hd : env.hasDistributed = true := by
    by_contra h
    have h' : env.hasDistributed = false := by
      cases henv : env.hasDistributed
      · rfl
      · exact absurd henv h
    rw [gatherFeatures, h'] at hok
    simp at hok
  have hh : useHorovod = true → env.hvdOk = true := by
    intro hu
    by_contra h
    have h' : env.hvdOk = false := by
      cases henv : env.hvdOk
      · rfl
      · exact absurd henv h
    rw [gatherFeatures, hd, hu] at hok
    simp [h'] at hok
  have heq := gatherFeatures_eq_cat env localLoss gatherWithGrad rank
    worldSize useHorovod FA FB b hd hh hrank hA hB
  rw [heq] at hok
  have hga : ga = torchCat (allGatherList worldSize FA) := by
    have := hok
    simp only [Except.ok.injEq, Prod.mk.injEq] at this
    exact this.1.symm
  have hgb : gb = torchCat (allGatherList worldSize FB) := by
    simp only [Except.ok.injEq, Prod.mk.injEq] at hok
    exact hok.2.symm
  intro r hr
  have hmemA : ∀ x ∈ allGatherList worldSize FA, x.length = b := by
    intro x hx
    simp only [allGatherList, List.mem_map, List.mem_range] at hx
    obtain ⟨i, hi, rfl⟩ := hx
    exact hA i hi
  have hmemB : ∀ x ∈ allGatherList worldSize FB, x.length = b := by
    intro x hx
    simp only [allGatherList, List.mem_map, List.mem_range] at hx
    obtain ⟨i, hi, rfl⟩ := hx
    exact hB i hi
  have hrA : r < (allGatherList worldSize FA).length := by
    simpa [allGatherList] using hr
  have hrB : r < (allGatherList worldSize FB).length := by
    simpa [allGatherList] using hr
  constructor
  · rw [hga]
    rw [torchCat, rowBlock_join _ _ hmemA r hrA, allGatherList_getD _ _ _ hr]
  · rw [hgb]
    rw [torchCat, rowBlock_join _ _ hmemB r hrB, allGatherList_getD _ _ _ hr]

/-- Witness for C1: a concrete two-worker world over `ℤ` with one row per
worker, generic backend without gradient gather. -/
theorem gather_features_rank_block_witness :
    rowBlock [[(3 : ℤ)], [3]] 1 1 = [[(3 : ℤ)]] ∧
    rowBlock [[(7 : ℤ)], [7]] 1 1 = [[(7 : ℤ)]] :=
  gather_features_rank_block ⟨true, false⟩ false false 0 2 false
    (fun _ => [[(3 : ℤ)]]) (fun _ => [[(7 : ℤ)]]) 1
    [[(3 : ℤ)], [3]] [[(7 : ℤ)], [7]]
    rfl (by decide)
    (fun _ _ => rfl) (fun _ _ => rfl)
    1 (by decide)

/-- Row-by-row dot product: entry of `A @ B.T`. -/
def dotProd [CommRing α] (xs ys : List α) : α :=
  (List.zipWith (fun a b => a * b) xs ys).sum

/-- `A @ B.T` for two batches of rows: entry `(i, j)` is `⟨A i, B j⟩`. -/
def matMulT [CommRing α] (A B : List (List α)) : List (List α) :=
  A.map (fun ra => B.map (fun rb => dotProd ra rb))

/-- Scalar multiplication of a matrix (`logit_scale * M`). -/
def smulM [CommRing α] (c : α) (M : List (List α)) : List (List α) :=
  M.map (fun row => row.map (fun x => c * x))

/-- `M.T` for a matrix whose rows all have length `n` (torch knows the
shape; here the column count is passed explicitly). -/
def transposeIdx [CommRing α] (M : List (List α)) (n : ℕ) : List (List α) :=
  (List.range n).map (fun j => M.map (fun row => row.getD j 0))

/-- `ClipLoss.get_logits`.  Local features of the calling worker are
`FA cfg.rank` / `FB cfg.rank`; the distributed world enters through
`gather_features` exactly as in the source. -/
def getLogits [CommRing α] (env : DistEnv) (cfg : ClipCfg)
    (FA FB : ℕ → List (List α)) (logitScale : α) :
    Except PyErr (List (List α) × List (List α)) :=
  if 1 < cfg.worldSize then
    match gatherFeatures env cfg.localLoss cfg.gatherWithGrad cfg.rank
        cfg.worldSize cfg.useHorovod FA FB with
    | .error e => .error e
    | .ok (allA, allB) =>
      if cfg.localLoss then
        .ok (smulM logitScale (matMulT (FA cfg.rank) allB),
             smulM logitScale (matMulT (FB cfg.rank) allA))
      else
        .ok (smulM logitScale (matMulT allA allB),
             transposeIdx (smulM logitScale (matMulT allA allB)) allB.length)
  else
    .ok (smulM logitScale (matMulT (FA cfg.rank) (FB cfg.rank)),
         smulM logitScale (matMulT (FB cfg.rank) (FA cfg.rank)))

theorem dotProd_comm [CommRing α] (xs ys : List α) :
    dotProd xs ys = dotProd ys xs := by
  induction xs generalizing ys with
  | nil => cases ys <;> simp [dotProd]
  | cons x xt ih =>
    cases ys with
    | nil => simp [dotProd]
    | cons y yt =>
      simp only [dotProd, List.zipWith_cons_cons, List.sum_cons] at *
      rw [mul_comm, ih yt]

theorem length_transposeIdx [CommRing α] (M : List (List α)) (n : ℕ) :
    (transposeIdx M n).length = n := by
  simp [transposeIdx]

theorem length_smulM [CommRing α] (c : α) (M : List (List α)) :
    (smulM c M).length = M.length := by
  simp [smulM]

theorem length_matMulT [CommRing α] (A B : List (List α)) :
    (matMulT A B).length = A.length := by
  simp [matMulT]

/-- In single-worker mode the second logits matrix, computed as
`scale * B @ A.T`, is exactly the transpose of `scale * A @ B.T`. -/
theorem smulM_matMulT_transpose [CommRing α] (c : α) (A B : List (List α)) :
    smulM c (matMulT B A) = transposeIdx (smulM c (matMulT A B)) B.length := by
  apply List.ext_getElem
  · simp [smulM, matMulT, transposeIdx]
  · intro j h1 h2
    have hj : j < B.length := by simpa [smulM, matMulT] using h1
    simp only [smulM, matMulT, transposeIdx, List.getElem_map,
      List.getElem_range, List.map_map, Function.comp_apply]
    apply List.map_congr_left
    intro a _
    simp only [Function.comp_apply]
    have hmap : ((B.map (fun rb => dotProd a rb)).map
        (fun x => c * x)).getD j 0 = c * dotProd a B[j] := by
      rw [List.getD_eq_getElem _ _ (by simpa using hj)]
      simp
    rw [hmap, dotProd_comm]

/-- C2: when `local_loss` is false, the pair returned by
`ClipLoss.get_logits` satisfies `logits_per_feature_b =
transpose(logits_per_feature_a)` for every `world_size ≥ 1` — for
`world_size > 1` because the source computes the transpose explicitly, and
for `world_size == 1` because `scale * B @ A.T` equals the transpose of
`scale * A @ B.T`.  The column count of the transpose is the row count of
the second matrix. -/
theorem get_logits_transpose_law [CommRing α] (env : DistEnv) (cfg : ClipCfg)
    (FA FB : ℕ → List (List α)) (logitScale : α)
    (hll : cfg.localLoss = false) (_hw : 1 ≤ cfg.worldSize)
    (la lb : List (List α))
    (hok : getLogits env cfg FA FB logitScale = .ok (la, lb)) :
    lb = transposeIdx la lb.length := by
  rw [getLogits] at hok
  by_cases h1 : 1 < cfg.worldSize
  · rw [if_pos h1] at hok
    cases hgather : gatherFeatures env cfg.localLoss cfg.gatherWithGrad
        cfg.rank cfg.worldSize cfg.useHorovod FA FB with
    | error e => rw [hgather] at hok; simp at hok
    | ok p =>
      obtain ⟨allA, allB⟩ := p
      rw [hgather] at hok
      simp only [hll, Bool.false_eq_true, if_false, Except.ok.injEq,
        Prod.mk.injEq] at hok
      obtain ⟨hla, hlb⟩ := hok
      subst hla
      subst hlb
      rw [length_transposeIdx]
  · rw [if_neg h1] at hok
    simp only [Except.ok.injEq, Prod.mk.injEq] at hok
    obtain ⟨hla, hlb⟩ := hok
    subst hla
    subst hlb
    rw [length_smulM, length_matMulT]
    exact smulM_matMulT_transpose logitScale (FA cfg.rank) (FB cfg.rank)

/-- Witness for C2: a single-worker configuration over `ℤ` with a 1-by-2
and a 2-by-2 batch. -/
theorem get_logits_transpose_law_witness :
    [[(10 : ℤ)], [22]] = transposeIdx [[(10 : ℤ), 22]] 2 :=
  get_logits_transpose_law ⟨true, true⟩ ⟨false, false, false, 0, 1, false⟩
    (fun _ => [[(1 : ℤ), 2]]) (fun _ => [[(2 : ℤ), 4], [6, 8]]) 1
    rfl (by decide)
    [[(10 : ℤ), 22]] [[(10 : ℤ)], [22]] (by decide)

/-- The mutable cache state of a `ClipLoss` object: `self.prev_num_logits`
and `self.labels` (a dict from device to label tensor, modelled as an
association list where insertion conses and lookup takes the most recent
binding). Devices are identified by a natural number. -/
structure LossState where
  prevNumLogits : ℕ
  labels : List (ℕ × List ℤ)
  deriving DecidableEq

/-- The state of a freshly constructed loss object:
`prev_num_logits = 0`, empty label dict. -/
def initialState : LossState := ⟨0, []⟩

/-- `torch.arange(num_logits, dtype=long)`. -/
def arangeLabels (n : ℕ) : List ℤ :=
  List.map (fun i : ℕ => (i : ℤ)) (List.range n)

/-- The label tensor `ClipLoss.get_ground_truth` computes on a cache miss:
`arange(num_logits)`, shifted by `num_logits * rank` when
`world_size > 1 and local_loss`. -/
def computeLabels (cfg : ClipCfg) (numLogits : ℕ) : List ℤ :=
  let labels := arangeLabels numLogits
  if 1 < cfg.worldSize ∧ cfg.localLoss = true then
    labels.map (fun x => x + (numLogits : ℤ) * (cfg.rank : ℤ))
  else
    labels

/-- `ClipLoss.get_ground_truth`: returns the labels and the successor cache
state.  The recompute branch fires when `prev_num_logits != num_logits` or
the device has no cached entry; on recompute with `cache_labels` the entry
is stored and the watermark updated, otherwise the cached tensor for the
device is returned unchanged. -/
def getGroundTruth (cfg : ClipCfg) (s : LossState) (device numLogits : ℕ) :
    List ℤ × LossState :=
  if s.prevNumLogits ≠ numLogits ∨ List.lookup device s.labels = none then
    let labels := computeLabels cfg numLogits
    if cfg.cacheLabels then
      (labels, ⟨numLogits, (device, labels) :: s.labels⟩)
    else
      (labels, s)
  else
    ((List.lookup device s.labels).getD [], s)

theorem length_arangeLabels (n : ℕ) : (arangeLabels n).length = n := by
  rw [arangeLabels, List.length_map, List.length_range]

theorem length_computeLabels (cfg : ClipCfg) (n : ℕ) :
    (computeLabels cfg n).length = n := by
  rw [computeLabels]
  split
  · rw [List.length_map, length_arangeLabels]
  · rw [length_arangeLabels]

/-- C3: under `0 ≤ rank < world_size`, on any state in which the recompute
condition fires (in particular on a fresh loss object), `get_ground_truth`
returns `arange(num_logits) + num_logits * rank` when `local_loss` is true
and plain `arange(num_logits)` when it is false — also for
`world_size == 1`, where the code skips the offset but `rank = 0` makes
the offset vanish. -/
theorem get_ground_truth_labels (cfg : ClipCfg) (s : LossState)
    (device numLogits : ℕ)
    (hrank : cfg.rank < cfg.worldSize)
    (hcond : s.prevNumLogits ≠ numLogits ∨
      List.lookup device s.labels = none) :
    (getGroundTruth cfg s device numLogits).1 =
      if cfg.localLoss then
        (arangeLabels numLogits).map
          (fun x => x + (numLogits : ℤ) * (cfg.rank : ℤ))
      else
        arangeLabels numLogits := by
  rw [getGroundTruth, if_pos hcond]
  have hfst : (if cfg.cacheLabels then
        (computeLabels cfg numLogits,
          (⟨numLogits, (device, computeLabels cfg numLogits) :: s.labels⟩ :
            LossState))
      else (computeLabels cfg numLogits, s)).1 = computeLabels cfg numLogits := by
    split <;> rfl
  rw [hfst, computeLabels]
  by_cases h1 : 1 < cfg.worldSize ∧ cfg.localLoss = true
  · rw [if_pos h1]
    simp [h1.2]
  · rw [if_neg h1]
    cases hll : cfg.localLoss with
    | false => simp [hll]
    | true =>
      have hw1 : ¬ 1 < cfg.worldSize := fun hc => h1 ⟨hc, hll⟩
      have hr0 : cfg.rank = 0 := by omega
      simp [hll, hr0]

/-- Witness for C3: rank 1 of a two-worker local-loss configuration on a
fresh state with three logits. -/
theorem get_ground_truth_labels_witness :
    ((1 : ℕ) < 2) ∧
    (getGroundTruth ⟨true, false, true, 1, 2, false⟩ initialState 0 3).1 =
      (if true then
        (arangeLabels 3).map (fun x => x + (3 : ℤ) * ((1 : ℕ) : ℤ))
      else arangeLabels 3) :=
  ⟨by decide,
   get_ground_truth_labels ⟨true, false, true, 1, 2, false⟩ initialState 0 3
     (by decide) (by decide)⟩

/-- Repeated calls to `get_ground_truth` on one fixed device, threading the
cache state; returns the label tensor of each call. -/
def runCalls (cfg : ClipCfg) (device : ℕ) : LossState → List ℕ → List (List ℤ)
  | _, [] => []
  | s, n :: ns =>
    (getGroundTruth cfg s device n).1 ::
      runCalls cfg device (getGroundTruth cfg s device n).2 ns

/-- Single-device cache invariant: any cached entry for the device has the
length recorded in the shared watermark. -/
def cacheInv (s : LossState) (device : ℕ) : Prop :=
  ∀ l, List.lookup device s.labels = some l → l.length = s.prevNumLogits

theorem getGroundTruth_step (cfg : ClipCfg) (s : LossState)
    (device n : ℕ) (hinv : cacheInv s device) :
    (getGroundTruth cfg s device n).1.length = n ∧
      cacheInv (getGroundTruth cfg s device n).2 device := by
  rw [getGroundTruth]
  by_cases hcond : s.prevNumLogits ≠ n ∨ List.lookup device s.labels = none
  · rw [if_pos hcond]
    cases hc : cfg.cacheLabels with
    | false =>
      simp only [Bool.false_eq_true, if_false]
      exact ⟨length_computeLabels cfg n, hinv⟩
    | true =>
      simp only [if_true]
      refine ⟨length_computeLabels cfg n, ?_⟩
      intro l hl
      simp only [List.lookup_cons_self] at hl
      cases hl
      exact length_computeLabels cfg n
  · rw [if_neg hcond]
    push_neg at hcond
    obtain ⟨hprev, hsome⟩ := hcond
    cases hlook : List.lookup device s.labels with
    | none => exact absurd hlook hsome
    | some l =>
      constructor
      · simp only [hlook, Option.getD_some]
        rw [hinv l hlook, hprev]
      · exact hinv

theorem runCalls_lengths (cfg : ClipCfg) (device : ℕ) (ns : List ℕ)
    (s : LossState) (hinv : cacheInv s device) :
    List.Forall₂ (fun (l : List ℤ) (n : ℕ) => l.length = n)
      (runCalls cfg device s ns) ns := by
  induction ns generalizing s with
  | nil => exact List.Forall₂.nil
  | cons n ns ih =>
    have hstep := getGroundTruth_step cfg s device n hinv
    exact List.Forall₂.cons hstep.1 (ih _ hstep.2)

/-- C4 counterexample: with caching enabled, two devices, and per-step
homogeneous `num_logits` (step one: both devices request 3; step two: both
request 2), the fourth call requests 2 logits but is served the stale
3-element tensor cached for device 1: the shared scalar watermark was
already reset to 2 by device 0, so the else-branch returns the old entry.
This refutes the final clause of the claim (per-step homogeneity across
devices is not sufficient for length correctness). -/
theorem label_cache_homogeneity_counterexample :
    ((getGroundTruth ⟨false, false, true, 0, 1, false⟩
        (getGroundTruth ⟨false, false, true, 0, 1, false⟩
          (getGroundTruth ⟨false, false, true, 0, 1, false⟩
            (getGroundTruth ⟨false, false, true, 0, 1, false⟩
              initialState 0 3).2
            1 3).2
          0 2).2
        1 2).1).length ≠ 2 := by
  decide

/-- C4 (amended): with caching enabled, (i) a second call with the same
`(device, num_logits)` returns the same labels and leaves the state
unchanged; (ii) a following call with a different `num_logits` recomputes
fresh labels of the new length; (iii) the per-call length guarantee
(every returned tensor has the requested length) holds for call sequences
confined to a single device — not merely for sequences that are
per-step homogeneous across several devices, which the counterexample
refutes. -/
theorem label_cache_amended :
    (∀ (cfg : ClipCfg) (s : LossState) (device n : ℕ),
      cfg.cacheLabels = true →
      getGroundTruth cfg (getGroundTruth cfg s device n).2 device n =
        getGroundTruth cfg s device n) ∧
    (∀ (cfg : ClipCfg) (s : LossState) (device n n2 : ℕ),
      cfg.cacheLabels = true → n2 ≠ n →
      (getGroundTruth cfg (getGroundTruth cfg s device n).2 device n2).1 =
        computeLabels cfg n2 ∧
      (getGroundTruth cfg (getGroundTruth cfg s device n).2 device n2).1.length
        = n2) ∧
    (∀ (cfg : ClipCfg) (device : ℕ) (ns : List ℕ),
      List.Forall₂ (fun (l : List ℤ) (n : ℕ) => l.length = n)
        (runCalls cfg device initialState ns) ns) := by
  refine ⟨?_, ?_, ?_⟩
  · intro cfg s device n hc
    by_cases hcond : s.prevNumLogits ≠ n ∨ List.lookup device s.labels = none
    · have hgs : getGroundTruth cfg s device n =
          (computeLabels cfg n,
            ⟨n, (device, computeLabels cfg n) :: s.labels⟩) := by
        rw [getGroundTruth, if_pos hcond, hc]
        simp
      rw [hgs, getGroundTruth]
      have hnocond : ¬ (((⟨n, (device, computeLabels cfg n) :: s.labels⟩ :
          LossState)).prevNumLogits ≠ n ∨
          List.lookup device ((⟨n, (device, computeLabels cfg n) :: s.labels⟩ :
            LossState)).labels = none) := by
        push_neg
        exact ⟨rfl, by simp [List.lookup_cons_self]⟩
      rw [if_neg hnocond]
      simp [List.lookup_cons_self]
    · have hgs : getGroundTruth cfg s device n =
          ((List.lookup device s.labels).getD [], s) := by
        rw [getGroundTruth, if_neg hcond]
      rw [hgs]
      exact hgs
  · intro cfg s device n n2 hc hne
    have hprev : (getGroundTruth cfg s device n).2.prevNumLogits = n := by
      rw [getGroundTruth]
      by_cases hcond : s.prevNumLogits ≠ n ∨
          List.lookup device s.labels = none
      · rw [if_pos hcond, hc]
        simp
      · rw [if_neg hcond]
        push_neg at hcond
        exact hcond.1
    have hcond2 : (getGroundTruth cfg s device n).2.prevNumLogits ≠ n2 ∨
        List.lookup device (getGroundTruth cfg s device n).2.labels = none :=
      Or.inl (by rw [hprev]; exact fun h => hne h.symm)
    rw [getGroundTruth, if_pos hcond2]
    have hfst : ∀ (s2 : LossState), (if cfg.cacheLabels then
        (computeLabels cfg n2,
          (⟨n2, (device, computeLabels cfg n2) :: s2.labels⟩ : LossState))
      else (computeLabels cfg n2, s2)).1 = computeLabels cfg n2 := by
      intro s2
      split <;> rfl
    refine ⟨hfst _, ?_⟩
    rw [hfst _, length_computeLabels]
  · intro cfg device ns
    apply runCalls_lengths
    intro l hl
    simp [initialState] at hl

/-- Witness for C4 (amended), at a concrete cached configuration: repeat of
`(device 0, 2)` is idempotent, a follow-up call with 3 returns 3 labels, and
a single-device sequence `[2, 3, 2]` returns tensors of lengths `[2, 3, 2]`. -/
theorem label_cache_amended_witness :
    getGroundTruth ⟨false, false, true, 0, 1, false⟩
        (getGroundTruth ⟨false, false, true, 0, 1, false⟩
          initialState 0 2).2 0 2 =
      getGroundTruth ⟨false, false, true, 0, 1, false⟩ initialState 0 2 ∧
    (getGroundTruth ⟨false, false, true, 0, 1, false⟩
        (getGroundTruth ⟨false, false, true, 0, 1, false⟩
          initialState 0 2).2 0 3).1.length = 3 ∧
    List.Forall₂ (fun (l : List ℤ) (n : ℕ) => l.length = n)
      (runCalls ⟨false, false, true, 0, 1, false⟩ 0 initialState [2, 3, 2])
      [2, 3, 2] :=
  ⟨label_cache_amended.1 ⟨false, false, true, 0, 1, false⟩ initialState 0 2 rfl,
   (label_cache_amended.2.1 ⟨false, false, true, 0, 1, false⟩ initialState
     0 2 3 rfl (by decide)).2,
   label_cache_amended.2.2 ⟨false, false, true, 0, 1, false⟩ 0 [2, 3, 2]⟩

/-- `Z = sum of exp over a row` (the softmax normaliser). -/
noncomputable def expSum (row : List ℝ) : ℝ := (row.map Real.exp).sum

/-- `row.softmax(dim)` for one row. -/
noncomputable def softmaxRow (row : List ℝ) : List ℝ :=
  row.map (fun x => Real.exp x / expSum row)

/-- `row.log_softmax(dim)` for one row. -/
noncomputable def logSoftmaxRow (row : List ℝ) : List ℝ :=
  row.map (fun x => x - Real.log (expSum row))

/-- One row's contribution to `F.cross_entropy` with integer target:
`logsumexp(row) - row[target]`. -/
noncomputable def rowCE (row : List ℝ) (target : ℤ) : ℝ :=
  Real.log (expSum row) - row.getD target.toNat 0

/-- `F.cross_entropy(logits, labels)` with mean reduction over the batch. -/
noncomputable def crossEntropy (logits : List (List ℝ)) (labels : List ℤ) : ℝ :=
  (((logits.zip labels).map (fun p => rowCE p.1 p.2)).sum) /
    (logits.length : ℝ)

/-- `DistillClipLoss.dist_loss`:
`-(teacher.softmax(1) * student.log_softmax(1)).sum(1).mean(0)`. -/
noncomputable def distLoss (teacherLogits studentLogits : List (List ℝ)) : ℝ :=
  -(((teacherLogits.zip studentLogits).map
      (fun p => (List.zipWith (fun a b => a * b)
        (softmaxRow p.1) (logSoftmaxRow p.2)).sum)).sum /
    (teacherLogits.length : ℝ))

/-- The Shannon entropy of the softmax distribution of a row, written as
`-(sum of p * log p)`. -/
noncomputable def rowEntropy (row : List ℝ) : ℝ :=
  -(((softmaxRow row).map (fun p => p * Real.log p)).sum)

/-- Return value of `ClipLoss.forward`: a bare scalar loss, or the named
mapping produced when `output_dict` is set. -/
inductive ClipOut where
  | scalar : ℝ → ClipOut
  | dict : List (String × ℝ) → ClipOut

/-- Return value of `CoCaLoss.forward` and `DistillClipLoss.forward`: a
pair of loss terms, or the named mapping produced when `output_dict` is
set. -/
inductive PairOut where
  | pair : ℝ → ℝ → PairOut
  | dict : List (String × ℝ) → PairOut

/-- The feature-pair selection at the top of `ClipLoss.forward`: the
`(image_features, text_features)` pairing takes precedence, then
`(text_a_features, text_b_features)`; `none` when neither pairing is
complete, in which case `features_a` stays unbound. -/
def selectPair (img txt ta tb : Option β) : Option (β × β) :=
  match img, txt with
  | some fa, some fb => some (fa, fb)
  | _, _ =>
    match ta, tb with
    | some fa, some fb => some (fa, fb)
    | _, _ => none

/-- The body of `ClipLoss.forward` up to the final `total_loss` scalar:
select the feature pair (an unassigned pair raises the unbound-local
error, leaving the cache untouched), build logits, fetch labels keyed on
`device` and `logits_per_feature_a.shape[0]`, and average the two
cross-entropies.  Each feature argument is a world family; the local batch
of a family `F` is `F cfg.rank` and `device` stands for
`features_a.device`. -/
noncomputable def clipForwardCore (env : DistEnv) (cfg : ClipCfg)
    (s : LossState)
    (imageFeatures textFeatures textAFeatures textBFeatures :
      Option (ℕ → List (List ℝ)))
    (logitScale : ℝ) (device : ℕ) : Except PyErr ℝ × LossState :=
  match selectPair imageFeatures textFeatures textAFeatures textBFeatures with
  | none => (.error .unboundLocal, s)
  | some (fa, fb) =>
    match getLogits env cfg fa fb logitScale with
    | .error e => (.error e, s)
    | .ok (la, lb) =>
      let r := getGroundTruth cfg s device la.length
      (.ok ((crossEntropy la r.1 + crossEntropy lb r.1) / 2), r.2)

/-- `ClipLoss.forward`: the core total loss, wrapped per `output_dict`. -/
noncomputable def clipForward (env : DistEnv) (cfg : ClipCfg) (s : LossState)
    (imageFeatures textFeatures textAFeatures textBFeatures :
      Option (ℕ → List (List ℝ)))
    (logitScale : ℝ) (device : ℕ) (outputDict : Bool) :
    Except PyErr ClipOut × LossState :=
  match clipForwardCore env cfg s imageFeatures textFeatures textAFeatures
      textBFeatures logitScale device with
  | (.error e, s2) => (.error e, s2)
  | (.ok v, s2) =>
    (.ok (if outputDict then .dict [(("contrastive_loss" : String), v)]
          else .scalar v), s2)

/-- `tensor.permute(0, 2, 1)` on a (batch, seq, vocab) stack of token
logits, giving (batch, vocab, seq); the class dimension size is read off
the first row of each sample. -/
def permute021 (x : List (List (List ℝ))) : List (List (List ℝ)) :=
  x.map (fun m => transposeIdx m ((m.getD 0 []).length))

/-- The per-position (class-vector, target) pairs of a `(N, C, d)` logits
stack against `(N, d)` targets, flattened over the batch, as consumed by
`nn.CrossEntropyLoss` on 3-D input. -/
def positionPairs (x : List (List (List ℝ))) (labels : List (List ℤ)) :
    List (List ℝ × ℤ) :=
  ((x.zip labels).map (fun p =>
    (List.range p.2.length).map (fun pos =>
      (p.1.map (fun classRow => classRow.getD pos 0), p.2.getD pos 0)))).flatten

/-- `nn.CrossEntropyLoss(ignore_index=pad_id)` on `(N, C, d)` logits and
`(N, d)` integer targets: positions whose target equals `pad_id` are
dropped, the rest contribute `logsumexp - logit[target]`, averaged over
the kept positions. -/
noncomputable def nnCrossEntropyIgnore (padId : ℤ)
    (x : List (List (List ℝ))) (labels : List (List ℤ)) : ℝ :=
  let kept := (positionPairs x labels).filter (fun pr => pr.2 ≠ padId)
  ((kept.map (fun pr => rowCE pr.1 pr.2)).sum) / (kept.length : ℝ)

/-- `CoCaLoss.forward`: the inherited contrastive loss (called with
`output_dict` left false, hence a bare scalar) scaled by
`clip_loss_weight`, and the token cross-entropy of the permuted caption
logits scaled by `caption_loss_weight`, returned separately. -/
noncomputable def cocaForward (env : DistEnv) (cfg : ClipCfg)
    (captionLossWeight clipLossWeight : ℝ) (padId : ℤ) (s : LossState)
    (imageFeatures textFeatures : ℕ → List (List ℝ))
    (logits : List (List (List ℝ))) (labels : List (List ℤ))
    (logitScale : ℝ) (device : ℕ) (outputDict : Bool) :
    Except PyErr PairOut × LossState :=
  match clipForwardCore env cfg s (some imageFeatures) (some textFeatures)
      none none logitScale device with
  | (.error e, s2) => (.error e, s2)
  | (.ok v, s2) =>
    let clipLoss := clipLossWeight * v
    let captionLoss :=
      nnCrossEntropyIgnore padId (permute021 logits) labels * captionLossWeight
    (.ok (if outputDict then
            .dict [(("contrastive_loss" : String), clipLoss),
                   (("caption_loss" : String), captionLoss)]
          else .pair clipLoss captionLoss), s2)

/-- `DistillClipLoss.forward`: student and teacher logits through the same
`get_logits`, shared labels, mean symmetric cross-entropy, and the mean of
the two directional distillation terms. -/
noncomputable def distillForward (env : DistEnv) (cfg : ClipCfg)
    (s : LossState)
    (imageFeatures textFeatures : ℕ → List (List ℝ)) (logitScale : ℝ)
    (distImageFeatures distTextFeatures : ℕ → List (List ℝ))
    (distLogitScale : ℝ) (device : ℕ) (outputDict : Bool) :
    Except PyErr PairOut × LossState :=
  match getLogits env cfg imageFeatures textFeatures logitScale with
  | .error e => (.error e, s)
  | .ok (logitsPerImage, logitsPerText) =>
    match getLogits env cfg distImageFeatures distTextFeatures
        distLogitScale with
    | .error e => (.error e, s)
    | .ok (distLogitsPerImage, distLogitsPerText) =>
      let r := getGroundTruth cfg s device logitsPerImage.length
      let contrastiveLoss :=
        (crossEntropy logitsPerImage r.1 + crossEntropy logitsPerText r.1) / 2
      let distillLoss :=
        (distLoss distLogitsPerImage logitsPerImage +
         distLoss distLogitsPerText logitsPerText) / 2
      (.ok (if outputDict then
              .dict [(("contrastive_loss" : String), contrastiveLoss),
                     (("distill_loss" : String), distillLoss)]
            else .pair contrastiveLoss distillLoss), r.2)

/-- C5: for every feature pair and logit scale, `ClipLoss.forward` returns
the arithmetic mean of the two directional cross-entropies
`(cross_entropy(logits_a, labels) + cross_entropy(logits_b, labels)) / 2`,
where the logits come from `get_logits` and the labels from
`get_ground_truth(features_a.device, logits_a.shape[0])`, and the successor
cache state is the one `get_ground_truth` produces. -/
theorem clip_forward_mean_ce (env : DistEnv) (cfg : ClipCfg) (s : LossState)
    (Fi Ft : ℕ → List (List ℝ)) (logitScale : ℝ) (device : ℕ)
    (la lb : List (List ℝ))
    (hok : getLogits env cfg Fi Ft logitScale = .ok (la, lb)) :
    clipForward env cfg s (some Fi) (some Ft) none none logitScale device
        false =
      (.ok (.scalar
        ((crossEntropy la (getGroundTruth cfg s device la.length).1 +
          crossEntropy lb (getGroundTruth cfg s device la.length).1) / 2)),
       (getGroundTruth cfg s device la.length).2) := by
  simp only [clipForward, clipForwardCore, selectPair, hok,
    Bool.false_eq_true, if_false]

/-- Witness for C5: empty batches in a single-worker configuration. -/
theorem clip_forward_mean_ce_witness :
    clipForward ⟨true, true⟩ ⟨false, false, false, 0, 1, false⟩ initialState
        (some (fun _ => ([] : List (List ℝ))))
        (some (fun _ => ([] : List (List ℝ)))) none none 1 0 false =
      (.ok (.scalar ((crossEntropy [] [] + crossEntropy [] []) / 2)),
       initialState) :=
  clip_forward_mean_ce ⟨true, true⟩ ⟨false, false, false, 0, 1, false⟩
    initialState (fun _ => ([] : List (List ℝ)))
    (fun _ => ([] : List (List ℝ))) 1 0 [] [] rfl

/-- C10: when neither the `(image_features, text_features)` pairing nor the
`(text_a_features, text_b_features)` pairing is fully provided,
`ClipLoss.forward` never assigns a feature pair and fails with the
unbound-local error before computing logits, labels, or loss, and without
touching the label cache (the state is returned unchanged); and when both
pairings are fully provided, the `(image_features, text_features)` pairing
takes precedence — the call behaves exactly as if the text pair were
absent. -/
theorem clip_forward_unbound_precedence :
    (∀ (env : DistEnv) (cfg : ClipCfg) (s : LossState)
      (img txt ta tb : Option (ℕ → List (List ℝ)))
      (scale : ℝ) (device : ℕ) (od : Bool),
      ¬(img.isSome = true ∧ txt.isSome = true) →
      ¬(ta.isSome = true ∧ tb.isSome = true) →
      clipForward env cfg s img txt ta tb scale device od =
        (.error .unboundLocal, s)) ∧
    (∀ (env : DistEnv) (cfg : ClipCfg) (s : LossState)
      (fa fb ga gb : ℕ → List (List ℝ)) (scale : ℝ) (device : ℕ) (od : Bool),
      clipForward env cfg s (some fa) (some fb) (some ga) (some gb) scale
          device od =
        clipForward env cfg s (some fa) (some fb) none none scale device od) := by
  constructor
  · intro env cfg s img txt ta tb scale device od h1 h2
    have hsel : selectPair img txt ta tb =
        (none : Option ((ℕ → List (List ℝ)) × (ℕ → List (List ℝ)))) := by
      cases img <;> cases txt <;> cases ta <;> cases tb <;>
        simp_all [selectPair]
    simp only [clipForward, clipForwardCore, hsel]
  · intro env cfg s fa fb ga gb scale device od
    rfl

/-- Witness for C10: a call providing only `image_features` fails with the
unbound-local error and leaves the fresh state untouched. -/
theorem clip_forward_unbound_precedence_witness :
    clipForward ⟨true, true⟩ ⟨false, false, true, 0, 1, false⟩ initialState
        (some (fun _ => ([] : List (List ℝ)))) none none none 1 0 false =
      (.error .unboundLocal, initialState) :=
  clip_forward_unbound_precedence.1 ⟨true, true⟩
    ⟨false, false, true, 0, 1, false⟩ initialState
    (some (fun _ => ([] : List (List ℝ)))) none none none 1 0 false
    (by simp) (by simp)

/-- C8: all three loss classes honor `output_dict` identically: with
`output_dict` true, `forward` returns the mapping with keys
`contrastive_loss` (ClipLoss), `contrastive_loss`/`caption_loss`
(CoCaLoss), `contrastive_loss`/`distill_loss` (DistillClipLoss) holding
exactly the values that the `output_dict = false` call returns bare, and
the cache state evolution is identical. -/
theorem output_dict_protocol :
    (∀ (env : DistEnv) (cfg : ClipCfg) (s : LossState)
      (img txt ta tb : Option (ℕ → List (List ℝ))) (scale : ℝ) (device : ℕ)
      (v : ℝ) (s2 : LossState),
      clipForward env cfg s img txt ta tb scale device false =
        (.ok (.scalar v), s2) →
      clipForward env cfg s img txt ta tb scale device true =
        (.ok (.dict [(("contrastive_loss" : String), v)]), s2)) ∧
    (∀ (env : DistEnv) (cfg : ClipCfg) (capW clipW : ℝ) (padId : ℤ)
      (s : LossState) (Fi Ft : ℕ → List (List ℝ))
      (logits : List (List (List ℝ))) (labels : List (List ℤ))
      (scale : ℝ) (device : ℕ) (c cap : ℝ) (s2 : LossState),
      cocaForward env cfg capW clipW padId s Fi Ft logits labels scale
          device false = (.ok (.pair c cap), s2) →
      cocaForward env cfg capW clipW padId s Fi Ft logits labels scale
          device true =
        (.ok (.dict [(("contrastive_loss" : String), c),
                     (("caption_loss" : String), cap)]), s2)) ∧
    (∀ (env : DistEnv) (cfg : ClipCfg) (s : LossState)
      (Fi Ft : ℕ → List (List ℝ)) (scale : ℝ)
      (Fdi Fdt : ℕ → List (List ℝ)) (dscale : ℝ) (device : ℕ)
      (c d : ℝ) (s2 : LossState),
      distillForward env cfg s Fi Ft scale Fdi Fdt dscale device false =
        (.ok (.pair c d), s2) →
      distillForward env cfg s Fi Ft scale Fdi Fdt dscale device true =
        (.ok (.dict [(("contrastive_loss" : String), c),
                     (("distill_loss" : String), d)]), s2)) := by
  refine ⟨?_, ?_, ?_⟩
  · intro env cfg s img txt ta tb scale device v s2 h
    rcases hcore : clipForwardCore env cfg s img txt ta tb scale device with
      ⟨r, s3⟩
    cases r with
    | error e =>
      rw [clipForward, hcore] at h
      simp at h
    | ok w =>
      rw [clipForward, hcore] at h
      simp only [Bool.false_eq_true, if_false, Prod.mk.injEq,
        Except.ok.injEq, ClipOut.scalar.injEq] at h
      obtain ⟨hv, hs⟩ := h
      rw [clipForward, hcore]
      simp only [if_true, hv, hs]
  · intro env cfg capW clipW padId s Fi Ft logits labels scale device c cap
      s2 h
    rcases hcore : clipForwardCore env cfg s (some Fi) (some Ft) none none
        scale device with ⟨r, s3⟩
    cases r with
    | error e =>
      rw [cocaForward, hcore] at h
      simp at h
    | ok w =>
      rw [cocaForward, hcore] at h
      simp only [Bool.false_eq_true, if_false, Prod.mk.injEq,
        Except.ok.injEq, PairOut.pair.injEq] at h
      obtain ⟨⟨hc, hcap⟩, hs⟩ := h
      rw [cocaForward, hcore]
      simp only [if_true, hc, hcap, hs]
  · intro env cfg s Fi Ft scale Fdi Fdt dscale device c d s2 h
    rcases hok1 : getLogits env cfg Fi Ft scale with e1 | p1
    · rw [distillForward, hok1] at h
      simp at h
    · rcases hok2 : getLogits env cfg Fdi Fdt dscale with e2 | p2
      · rcases p1 with ⟨li, lt⟩
        rw [distillForward, hok1, hok2] at h
        simp at h
      · rcases p1 with ⟨li, lt⟩
        rcases p2 with ⟨dli, dlt⟩
        rw [distillForward, hok1, hok2] at h
        simp only [Bool.false_eq_true, if_false, Prod.mk.injEq,
          Except.ok.injEq, PairOut.pair.injEq] at h
        obtain ⟨⟨hc, hd⟩, hs⟩ := h
        rw [distillForward, hok1, hok2]
        simp only [if_true, hc, hd, hs]

/-- Witness for C8: all three forwards at empty batches in a single-worker
configuration, wrapping the same values into the named mappings. -/
theorem output_dict_protocol_witness :
    clipForward ⟨true, true⟩ ⟨false, false, false, 0, 1, false⟩ initialState
        (some (fun _ => ([] : List (List ℝ))))
        (some (fun _ => ([] : List (List ℝ)))) none none 1 0 true =
      (.ok (.dict [(("contrastive_loss" : String),
        (crossEntropy [] [] + crossEntropy [] []) / 2)]), initialState) ∧
    cocaForward ⟨true, true⟩ ⟨false, false, false, 0, 1, false⟩ 1 1 0
        initialState (fun _ => ([] : List (List ℝ)))
        (fun _ => ([] : List (List ℝ))) [] [] 1 0 true =
      (.ok (.dict [(("contrastive_loss" : String),
          1 * ((crossEntropy [] [] + crossEntropy [] []) / 2)),
        (("caption_loss" : String),
          nnCrossEntropyIgnore 0 (permute021 []) [] * 1)]), initialState) ∧
    distillForward ⟨true, true⟩ ⟨false, false, false, 0, 1, false⟩
        initialState (fun _ => ([] : List (List ℝ)))
        (fun _ => ([] : List (List ℝ))) 1 (fun _ => ([] : List (List ℝ)))
        (fun _ => ([] : List (List ℝ))) 1 0 true =
      (.ok (.dict [(("contrastive_loss" : String),
          (crossEntropy [] [] + crossEntropy [] []) / 2),
        (("distill_loss" : String),
          (distLoss [] [] + distLoss [] []) / 2)]), initialState) :=
  ⟨output_dict_protocol.1 ⟨true, true⟩ ⟨false, false, false, 0, 1, false⟩
     initialState (some (fun _ => ([] : List (List ℝ))))
     (some (fun _ => ([] : List (List ℝ)))) none none 1 0
     ((crossEntropy [] [] + crossEntropy [] []) / 2) initialState rfl,
   output_dict_protocol.2.1 ⟨true, true⟩ ⟨false, false, false, 0, 1, false⟩
     1 1 0 initialState (fun _ => ([] : List (List ℝ)))
     (fun _ => ([] : List (List ℝ))) [] [] 1 0
     (1 * ((crossEntropy [] [] + crossEntropy [] []) / 2))
     (nnCrossEntropyIgnore 0 (permute021 []) [] * 1) initialState rfl,
   output_dict_protocol.2.2 ⟨true, true⟩ ⟨false, false, false, 0, 1, false⟩
     initialState (fun _ => ([] : List (List ℝ)))
     (fun _ => ([] : List (List ℝ))) 1 (fun _ => ([] : List (List ℝ)))
     (fun _ => ([] : List (List ℝ))) 1 0
     ((crossEntropy [] [] + crossEntropy [] []) / 2)
     ((distLoss [] [] + distLoss [] []) / 2) initialState rfl⟩

/-- C9: `gather_features` fails fast with the corresponding fatal assertion
error whenever the `torch.distributed` runtime is unavailable, and likewise
when horovod is requested but not installed; conversely, whenever the
selected backend is available, neither assertion fires and the call
returns a gathered pair. -/
theorem gather_features_asserts (env : DistEnv)
    (localLoss gatherWithGrad : Bool) (rank worldSize : ℕ)
    (useHorovod : Bool) (FA FB : ℕ → List (List α)) :
    (env.hasDistributed = false →
      gatherFeatures env localLoss gatherWithGrad rank worldSize useHorovod
          FA FB =
        .error (.assertionError
          ("torch.distributed did not import correctly, please use a PyTorch version with support."))) ∧
    (env.hasDistributed = true → useHorovod = true → env.hvdOk = false →
      gatherFeatures env localLoss gatherWithGrad rank worldSize useHorovod
          FA FB =
        .error (.assertionError ("Please install horovod"))) ∧
    (env.hasDistributed = true → (useHorovod = true → env.hvdOk = true) →
      (gatherFeatures env localLoss gatherWithGrad rank worldSize useHorovod
          FA FB).isOk = true) := by
  refine ⟨?_, ?_, ?_⟩
  · intro hd
    rw [gatherFeatures, if_pos hd]
  · intro hd hu hv
    rw [gatherFeatures, hd, hu, hv]
    simp
  · intro hd hh
    rw [gatherFeatures, hd]
    cases useHorovod with
    | false =>
      simp only [Bool.true_eq_false, if_false, if_neg]
      cases gatherWithGrad with
      | false => simp [Except.isOk, Except.toBool]
      | true => simp [Except.isOk, Except.toBool]
    | true =>
      rw [hh rfl]
      cases gatherWithGrad with
      | false =>
        cases localLoss with
        | false => simp [Except.isOk, Except.toBool]
        | true => simp [Except.isOk, Except.toBool]
      | true => simp [Except.isOk, Except.toBool]

/-- Witness for C9: concrete environments over `ℤ` exercising each of the
three clauses. -/
theorem gather_features_asserts_witness :
    (gatherFeatures ⟨false, false⟩ false false 0 2 false
        (fun _ => [[(1 : ℤ)]]) (fun _ => [[(2 : ℤ)]]) =
      .error (.assertionError
        ("torch.distributed did not import correctly, please use a PyTorch version with support."))) ∧
    (gatherFeatures ⟨true, false⟩ false false 0 2 true
        (fun _ => [[(1 : ℤ)]]) (fun _ => [[(2 : ℤ)]]) =
      .error (.assertionError ("Please install horovod"))) ∧
    ((gatherFeatures ⟨true, true⟩ false false 0 2 true
        (fun _ => [[(1 : ℤ)]]) (fun _ => [[(2 : ℤ)]])).isOk = true) :=
  ⟨(gather_features_asserts ⟨false, false⟩ false false 0 2 false
      (fun _ => [[(1 : ℤ)]]) (fun _ => [[(2 : ℤ)]])).1 rfl,
   (gather_features_asserts ⟨true, false⟩ false false 0 2 true
      (fun _ => [[(1 : ℤ)]]) (fun _ => [[(2 : ℤ)]])).2.1 rfl rfl rfl,
   (gather_features_asserts ⟨true, true⟩ false false 0 2 true
      (fun _ => [[(1 : ℤ)]]) (fun _ => [[(2 : ℤ)]])).2.2 rfl
      (fun _ => rfl)⟩

theorem sum_map_div_list (l : List β) (g : β → ℝ) (c : ℝ) :
    (l.map (fun x => g x / c)).sum = (l.map g).sum / c := by
  induction l with
  | nil => simp
  | cons x t ih => simp [ih, add_div]

theorem sum_map_neg_list (l : List β) (g : β → ℝ) :
    (l.map (fun x => -(g x))).sum = -((l.map g).sum) := by
  induction l with
  | nil => simp
  | cons x t ih =>
    simp only [List.map_cons, List.sum_cons, ih]
    ring

theorem sum_nonneg_list (l : List ℝ) (h : ∀ x ∈ l, 0 ≤ x) : 0 ≤ l.sum := by
  induction l with
  | nil => simp
  | cons x t ih =>
    have hx := h x (by simp)
    have ht := ih (fun y hy => h y (by simp [hy]))
    simp only [List.sum_cons]
    linarith

theorem sum_nonpos_list (l : List ℝ) (h : ∀ x ∈ l, x ≤ 0) : l.sum ≤ 0 := by
  induction l with
  | nil => simp
  | cons x t ih =>
    have hx := h x (by simp)
    have ht := ih (fun y hy => h y (by simp [hy]))
    simp only [List.sum_cons]
    linarith

theorem all_zero_of_sum_nonpos_list (l : List ℝ) (h : ∀ x ∈ l, x ≤ 0)
    (hs : l.sum = 0) : ∀ x ∈ l, x = 0 := by
  induction l with
  | nil => simp
  | cons x t ih =>
    have hx := h x (by simp)
    have ht : t.sum ≤ 0 := sum_nonpos_list t (fun y hy => h y (by simp [hy]))
    simp only [List.sum_cons] at hs
    have hx0 : x = 0 := by linarith
    have hts : t.sum = 0 := by linarith
    intro y hy
    rcases List.mem_cons.mp hy with rfl | hyt
    · exact hx0
    · exact ih (fun z hz => h z (by simp [hz])) hts y hyt

theorem all_zero_of_sum_nonneg_list (l : List ℝ) (h : ∀ x ∈ l, 0 ≤ x)
    (hs : l.sum = 0) : ∀ x ∈ l, x = 0 := by
  intro x hx
  have := all_zero_of_sum_nonpos_list (l.map (fun y => -y))
    (by intro y hy
        simp only [List.mem_map] at hy
        obtain ⟨z, hz, rfl⟩ := hy
        simpa using h z hz)
    (by rw [show (fun y : ℝ => -y) = (fun y : ℝ => -(id y)) from rfl,
          sum_map_neg_list]
        simp [hs])
    (-x) (List.mem_map_of_mem _ hx)
  linarith

theorem sum_all_one_length (l : List ℝ) (h : ∀ x ∈ l, x = 1) :
    l.sum = (l.length : ℝ) := by
  induction l with
  | nil => simp
  | cons x t ih =>
    have hx := h x (by simp)
    have ht := ih (fun y hy => h y (by simp [hy]))
    simp [hx, ht, add_comm]

theorem zip_self_eq_map (l : List β) : l.zip l = l.map (fun x => (x, x)) := by
  induction l with
  | nil => rfl
  | cons x t ih => simp [List.zip_cons_cons, ih]

theorem zipWith_map_same (l : List β) (g h : β → ℝ) (f : ℝ → ℝ → ℝ) :
    List.zipWith f (l.map g) (l.map h) = l.map (fun x => f (g x) (h x)) := by
  induction l with
  | nil => rfl
  | cons x t ih => simp [ih]

theorem expSum_pos (row : List ℝ) (hne : row ≠ []) : 0 < expSum row := by
  apply List.sum_pos
  · intro x hx
    simp only [List.mem_map] at hx
    obtain ⟨y, _, rfl⟩ := hx
    exact Real.exp_pos y
  · simpa using hne

theorem softmaxRow_pos (row : List ℝ) : ∀ p ∈ softmaxRow row, 0 < p := by
  intro p hp
  simp only [softmaxRow, List.mem_map] at hp
  obtain ⟨x, hx, rfl⟩ := hp
  have hne : row ≠ [] := by
    intro h
    rw [h] at hx
    simp at hx
  exact div_pos (Real.exp_pos x) (expSum_pos row hne)

theorem softmaxRow_le_one (row : List ℝ) : ∀ p ∈ softmaxRow row, p ≤ 1 := by
  intro p hp
  simp only [softmaxRow, List.mem_map] at hp
  obtain ⟨x, hx, rfl⟩ := hp
  have hne : row ≠ [] := by
    intro h
    rw [h] at hx
    simp at hx
  have hZ := expSum_pos row hne
  rw [div_le_one hZ]
  exact List.single_le_sum
    (by intro y hy
        simp only [List.mem_map] at hy
        obtain ⟨z, _, rfl⟩ := hy
        exact le_of_lt (Real.exp_pos z))
    _ (List.mem_map_of_mem _ hx)

theorem sum_softmaxRow (row : List ℝ) (hne : row ≠ []) :
    (softmaxRow row).sum = 1 := by
  rw [softmaxRow, sum_map_div_list row Real.exp (expSum row)]
  exact div_self (ne_of_gt (expSum_pos row hne))

theorem softmaxRow_length (row : List ℝ) :
    (softmaxRow row).length = row.length := by
  simp [softmaxRow]

theorem zipWith_softmax_logSoftmax_self (r : List ℝ) :
    (List.zipWith (fun a b => a * b) (softmaxRow r) (logSoftmaxRow r)).sum =
      -(rowEntropy r) := by
  rw [softmaxRow, logSoftmaxRow, zipWith_map_same, rowEntropy, softmaxRow,
    List.map_map, neg_neg]
  rcases eq_or_ne r [] with rfl | hne
  · simp
  · have hZ := expSum_pos r hne
    refine congrArg List.sum (List.map_congr_left ?_)
    intro x _
    simp only [Function.comp_apply]
    have hlog : Real.log (Real.exp x / expSum r) =
        x - Real.log (expSum r) := by
      rw [Real.log_div (Real.exp_ne_zero x) (ne_of_gt hZ), Real.log_exp]
    rw [hlog]

theorem rowEntropy_nonneg (r : List ℝ) : 0 ≤ rowEntropy r := by
  rw [rowEntropy]
  apply neg_nonneg.mpr
  apply sum_nonpos_list
  intro y hy
  simp only [List.mem_map] at hy
  obtain ⟨p, hp, rfl⟩ := hy
  have h1 := softmaxRow_pos r p hp
  have h2 := softmaxRow_le_one r p hp
  have hlog := Real.log_nonpos (le_of_lt h1) h2
  exact mul_nonpos_of_nonneg_of_nonpos (le_of_lt h1) hlog

theorem softmaxRow_all_one_of_entropy_zero (r : List ℝ)
    (h : rowEntropy r = 0) : ∀ p ∈ softmaxRow r, p = 1 := by
  intro p hp
  have hsum : ((softmaxRow r).map (fun p => p * Real.log p)).sum = 0 := by
    rw [rowEntropy] at h
    linarith
  have hterm : p * Real.log p = 0 := by
    refine all_zero_of_sum_nonpos_list _ ?_ hsum _
      (List.mem_map_of_mem _ hp)
    intro y hy
    simp only [List.mem_map] at hy
    obtain ⟨q, hq, rfl⟩ := hy
    have h1 := softmaxRow_pos r q hq
    have h2 := softmaxRow_le_one r q hq
    exact mul_nonpos_of_nonneg_of_nonpos (le_of_lt h1)
      (Real.log_nonpos (le_of_lt h1) h2)
  have hppos := softmaxRow_pos r p hp
  have hlog : Real.log p = 0 := by
    rcases mul_eq_zero.mp hterm with h0 | h0
    · exact absurd h0 (ne_of_gt hppos)
    · exact h0
  rcases Real.log_eq_zero.mp hlog with h0 | h1 | hm
  · exact absurd h0 (ne_of_gt hppos)
  · exact h1
  · linarith

theorem one_hot_row_of_entropy_zero (r : List ℝ) (hne : r ≠ [])
    (h : rowEntropy r = 0) :
    ∃ j, j < (softmaxRow r).length ∧ (softmaxRow r).getD j 0 = 1 ∧
      ∀ k, k < (softmaxRow r).length → k ≠ j →
        (softmaxRow r).getD k 0 = 0 := by
  have hall := softmaxRow_all_one_of_entropy_zero r h
  have hsum := sum_softmaxRow r hne
  have hlen : ((softmaxRow r).length : ℝ) = 1 := by
    rw [← sum_all_one_length _ hall, hsum]
  have hlen1 : (softmaxRow r).length = 1 := by exact_mod_cast hlen
  refine ⟨0, by omega, ?_, ?_⟩
  · cases hsr : softmaxRow r with
    | nil => rw [hsr] at hlen1; simp at hlen1
    | cons a t =>
      have ha : a = 1 := hall a (by rw [hsr]; simp)
      simp [hsr, ha]
  · intro k hk hkne
    rw [hlen1] at hk
    exact absurd (by omega : k = 0) hkne

theorem distLoss_self_entropy_eq (t : List (List ℝ)) :
    distLoss t t = ((t.map rowEntropy).sum) / (t.length : ℝ) := by
  rw [distLoss, zip_self_eq_map, List.map_map]
  have hmap : t.map ((fun p : List ℝ × List ℝ =>
      (List.zipWith (fun a b => a * b) (softmaxRow p.1)
        (logSoftmaxRow p.2)).sum) ∘ (fun x => (x, x))) =
      t.map (fun r => -(rowEntropy r)) := by
    refine List.map_congr_left ?_
    intro r _
    simp only [Function.comp_apply]
    exact zipWith_softmax_logSoftmax_self r
  rw [hmap, sum_map_neg_list, neg_div, neg_neg]

theorem distill_pair_structure (env : DistEnv) (cfg : ClipCfg)
    (st : LossState) (Fi Ft : ℕ → List (List ℝ)) (scale : ℝ)
    (Fdi Fdt : ℕ → List (List ℝ)) (dscale : ℝ) (device : ℕ)
    (li lt dli dlt : List (List ℝ))
    (h1 : getLogits env cfg Fi Ft scale = .ok (li, lt))
    (h2 : getLogits env cfg Fdi Fdt dscale = .ok (dli, dlt)) :
    distillForward env cfg st Fi Ft scale Fdi Fdt dscale device false =
      (.ok (.pair
        ((crossEntropy li (getGroundTruth cfg st device li.length).1 +
          crossEntropy lt (getGroundTruth cfg st device li.length).1) / 2)
        ((distLoss dli li + distLoss dlt lt) / 2)),
       (getGroundTruth cfg st device li.length).2) := by
  simp only [distillForward, h1, h2, Bool.false_eq_true, if_false]

/-- C6: `DistillClipLoss.dist_loss` is the mean over rows of the negative
inner product of the teacher softmax with the student log-softmax; with
identical teacher and student logits each directional term is the mean of
the rowwise quantity `-(sum of p * log p)` (the teacher softmax
distribution's entropy), which is at least the theoretical minimum 0, and
equals 0 only when every row's softmax is one-hot (for softmax this is the
degenerate single-class case); and `DistillClipLoss.forward` returns as
its distillation term the mean of the two directional terms. -/
theorem dist_loss_entropy (t s : List (List ℝ)) (hne : ∀ r ∈ t, r ≠ []) :
    (distLoss t s = (((t.zip s).map (fun p =>
        -((List.zipWith (fun a b => a * b) (softmaxRow p.1)
          (logSoftmaxRow p.2)).sum))).sum) / (t.length : ℝ)) ∧
    (distLoss t t = ((t.map rowEntropy).sum) / (t.length : ℝ)) ∧
    (0 ≤ distLoss t t) ∧
    (distLoss t t = 0 → ∀ r ∈ t,
      ∃ j, j < (softmaxRow r).length ∧ (softmaxRow r).getD j 0 = 1 ∧
        ∀ k, k < (softmaxRow r).length → k ≠ j →
          (softmaxRow r).getD k 0 = 0) ∧
    (∀ (env : DistEnv) (cfg : ClipCfg) (st : LossState)
      (Fi Ft : ℕ → List (List ℝ)) (scale : ℝ)
      (Fdi Fdt : ℕ → List (List ℝ)) (dscale : ℝ) (device : ℕ)
      (li lt dli dlt : List (List ℝ)),
      getLogits env cfg Fi Ft scale = .ok (li, lt) →
      getLogits env cfg Fdi Fdt dscale = .ok (dli, dlt) →
      distillForward env cfg st Fi Ft scale Fdi Fdt dscale device false =
        (.ok (.pair
          ((crossEntropy li (getGroundTruth cfg st device li.length).1 +
            crossEntropy lt (getGroundTruth cfg st device li.length).1) / 2)
          ((distLoss dli li + distLoss dlt lt) / 2)),
         (getGroundTruth cfg st device li.length).2)) := by
  refine ⟨?_, distLoss_self_entropy_eq t, ?_, ?_, ?_⟩
  · rw [distLoss, sum_map_neg_list, neg_div]
  · rw [distLoss_self_entropy_eq]
    apply div_nonneg
    · apply sum_nonneg_list
      intro x hx
      simp only [List.mem_map] at hx
      obtain ⟨r, _, rfl⟩ := hx
      exact rowEntropy_nonneg r
    · exact Nat.cast_nonneg _
  · intro h r hr
    rw [distLoss_self_entropy_eq] at h
    rcases div_eq_zero_iff.mp h with hs | hN
    · have hz : rowEntropy r = 0 :=
        all_zero_of_sum_nonneg_list _
          (by intro x hx
              simp only [List.mem_map] at hx
              obtain ⟨q, _, rfl⟩ := hx
              exact rowEntropy_nonneg q)
          hs _ (List.mem_map_of_mem _ hr)
      exact one_hot_row_of_entropy_zero r (hne r hr) hz
    · have h0 : t.length = 0 := by exact_mod_cast hN
      have ht : t = [] := List.length_eq_zero.mp h0
      subst ht
      simp at hr
  · intro env cfg st Fi Ft scale Fdi Fdt dscale device li lt dli dlt h1 h2
    exact distill_pair_structure env cfg st Fi Ft scale Fdi Fdt dscale device
      li lt dli dlt h1 h2

/-- Witness for C6 at a concrete two-class row. -/
theorem dist_loss_entropy_witness :
    (distLoss [[(0 : ℝ), 0]] [[(1 : ℝ), 2]] =
      ((([[(0 : ℝ), 0]].zip [[(1 : ℝ), 2]]).map (fun p =>
        -((List.zipWith (fun a b => a * b) (softmaxRow p.1)
          (logSoftmaxRow p.2)).sum))).sum) /
        (([[(0 : ℝ), 0]] : List (List ℝ)).length : ℝ)) ∧
    (distLoss [[(0 : ℝ), 0]] [[(0 : ℝ), 0]] =
      (([[(0 : ℝ), 0]].map rowEntropy).sum) /
        (([[(0 : ℝ), 0]] : List (List ℝ)).length : ℝ)) ∧
    (0 ≤ distLoss [[(0 : ℝ), 0]] [[(0 : ℝ), 0]]) ∧
    (distLoss [[(0 : ℝ), 0]] [[(0 : ℝ), 0]] = 0 → ∀ r ∈ [[(0 : ℝ), 0]],
      ∃ j, j < (softmaxRow r).length ∧ (softmaxRow r).getD j 0 = 1 ∧
        ∀ k, k < (softmaxRow r).length → k ≠ j →
          (softmaxRow r).getD k 0 = 0) ∧
    (∀ (env : DistEnv) (cfg : ClipCfg) (st : LossState)
      (Fi Ft : ℕ → List (List ℝ)) (scale : ℝ)
      (Fdi Fdt : ℕ → List (List ℝ)) (dscale : ℝ) (device : ℕ)
      (li lt dli dlt : List (List ℝ)),
      getLogits env cfg Fi Ft scale = .ok (li, lt) →
      getLogits env cfg Fdi Fdt dscale = .ok (dli, dlt) →
      distillForward env cfg st Fi Ft scale Fdi Fdt dscale device false =
        (.ok (.pair
          ((crossEntropy li (getGroundTruth cfg st device li.length).1 +
            crossEntropy lt (getGroundTruth cfg st device li.length).1) / 2)
          ((distLoss dli li + distLoss dlt lt) / 2)),
         (getGroundTruth cfg st device li.length).2)) :=
  dist_loss_entropy [[(0 : ℝ), 0]] [[(1 : ℝ), 2]] (by simp)

theorem filter_flatten_list (L : List (List γ)) (p : γ → Bool) :
    L.flatten.filter p = (L.map (fun l => l.filter p)).flatten := by
  induction L with
  | nil => rfl
  | cons x t ih => simp [List.filter_append, ih]

theorem filter_range_map_eq (k : ℕ) (padId : ℤ) (f g : ℕ → List ℝ × ℤ)
    (htar : ∀ p, p < k → (f p).2 = (g p).2)
    (hagr : ∀ p, p < k → (f p).2 ≠ padId → f p = g p) :
    ((List.range k).map f).filter (fun pr => pr.2 ≠ padId) =
      ((List.range k).map g).filter (fun pr => pr.2 ≠ padId) := by
  induction k with
  | zero => rfl
  | succ k ih =>
    rw [List.range_succ]
    simp only [List.map_append, List.filter_append]
    rw [ih (fun p hp => htar p (by omega)) (fun p hp => hagr p (by omega))]
    congr 1
    by_cases hp : (f k).2 = padId
    · have hg : (g k).2 = padId := by rw [← htar k (by omega)]; exact hp
      simp [List.filter, hp, hg]
    · have hfg := hagr k (by omega) hp
      simp [hfg]

theorem classVec_transposeIdx (mx : List (List ℝ)) (W pos : ℕ)
    (hpos : pos < mx.length) :
    (transposeIdx mx W).map (fun classRow => classRow.getD pos 0) =
      (List.range W).map (fun j => (mx.getD pos []).getD j 0) := by
  rw [transposeIdx, List.map_map]
  refine List.map_congr_left ?_
  intro j _
  simp only [Function.comp_apply]
  rw [List.getD_eq_getElem _ _ (by simpa using hpos), List.getElem_map,
    List.getD_eq_getElem _ _ hpos]

theorem persample_filtered_eq (padId : ℤ) (V : ℕ) (ts : List ℤ)
    (mx mx' : List (List ℝ))
    (hlen : mx.length = ts.length) (hlen' : mx'.length = ts.length)
    (hV : ∀ row ∈ mx, row.length = V) (hV' : ∀ row ∈ mx', row.length = V)
    (hagree : ∀ pos, pos < ts.length → ts.getD pos 0 ≠ padId →
      mx.getD pos [] = mx'.getD pos []) :
    ((List.range ts.length).map (fun pos =>
      ((transposeIdx mx ((mx.getD 0 []).length)).map
        (fun classRow => classRow.getD pos 0), ts.getD pos 0))).filter
      (fun pr => pr.2 ≠ padId) =
    ((List.range ts.length).map (fun pos =>
      ((transposeIdx mx' ((mx'.getD 0 []).length)).map
        (fun classRow => classRow.getD pos 0), ts.getD pos 0))).filter
      (fun pr => pr.2 ≠ padId) := by
  rcases Nat.eq_zero_or_pos ts.length with h0 | hpos0
  · rw [h0]
    rfl
  · have hmxne : 0 < mx.length := by omega
    have hmxne' : 0 < mx'.length := by omega
    have hW : (mx.getD 0 []).length = V := by
      rw [List.getD_eq_getElem _ _ hmxne]
      exact hV _ (List.getElem_mem hmxne)
    have hW' : (mx'.getD 0 []).length = V := by
      rw [List.getD_eq_getElem _ _ hmxne']
      exact hV' _ (List.getElem_mem hmxne')
    refine filter_range_map_eq ts.length padId _ _ (fun p _ => rfl) ?_
    intro pos hpos hne
    have hposx : pos < mx.length := by omega
    have hposx' : pos < mx'.length := by omega
    have hrow := hagree pos hpos hne
    refine Prod.ext ?_ rfl
    rw [classVec_transposeIdx mx _ pos hposx,
      classVec_transposeIdx mx' _ pos hposx', hW, hW', hrow]

theorem caption_ce_pad_invariant (padId : ℤ) (V : ℕ)
    (x x' : List (List (List ℝ))) (labels : List (List ℤ))
    (hxlen : x.length = labels.length) (hylen : x'.length = labels.length)
    (hseq : ∀ n, n < labels.length →
      (x.getD n []).length = (labels.getD n []).length)
    (hseq' : ∀ n, n < labels.length →
      (x'.getD n []).length = (labels.getD n []).length)
    (hV : ∀ m ∈ x, ∀ row ∈ m, row.length = V)
    (hV' : ∀ m ∈ x', ∀ row ∈ m, row.length = V)
    (hagree : ∀ n, n < labels.length →
      ∀ pos, pos < (labels.getD n []).length →
      (labels.getD n []).getD pos 0 ≠ padId →
      (x.getD n []).getD pos [] = (x'.getD n []).getD pos []) :
    nnCrossEntropyIgnore padId (permute021 x) labels =
      nnCrossEntropyIgnore padId (permute021 x') labels := by
  have hkept : (positionPairs (permute021 x) labels).filter
      (fun pr => pr.2 ≠ padId) =
      (positionPairs (permute021 x') labels).filter
        (fun pr => pr.2 ≠ padId) := by
    rw [positionPairs, positionPairs, filter_flatten_list,
      filter_flatten_list]
    congr 1
    apply List.ext_getElem
    · simp [permute021, hxlen, hylen]
    · intro n h1 h2
      have hn : n < labels.length := by
        simpa [permute021, hxlen] using h1
      have hnx : n < x.length := by omega
      have hnx' : n < x'.length := by omega
      simp only [permute021, List.getElem_map, List.getElem_zip]
      have hgx : x.getD n [] = x[n] := List.getD_eq_getElem x [] hnx
      have hgx' : x'.getD n [] = x'[n] := List.getD_eq_getElem x' [] hnx'
      have hgl : labels.getD n [] = labels[n] :=
        List.getD_eq_getElem labels [] hn
      refine persample_filtered_eq padId V labels[n] x[n] x'[n] ?_ ?_ ?_ ?_ ?_
      · rw [← hgx, ← hgl]
        exact hseq n hn
      · rw [← hgx', ← hgl]
        exact hseq' n hn
      · intro row hrow
        exact hV x[n] (List.getElem_mem hnx) row hrow
      · intro row hrow
        exact hV' x'[n] (List.getElem_mem hnx') row hrow
      · intro pos hpos hne
        rw [← hgx, ← hgx']
        refine hagree n hn pos ?_ ?_
        · rw [hgl]; exact hpos
        · rw [hgl]; exact hne
  simp only [nnCrossEntropyIgnore]
  rw [hkept]

/-- C7: in `CoCaLoss`, token positions whose label equals the configured
`pad_id` contribute nothing to the caption loss — two caption-logit stacks
of the same shape that agree on the vocabulary vector of every non-pad
position yield the same caption loss — and the two returned terms are
`clip_loss_weight * (base contrastive loss)` and
`caption_loss_weight * (token cross-entropy)`, returned separately as a
pair, never summed. -/
theorem coca_caption_pad_masking :
    (∀ (env : DistEnv) (cfg : ClipCfg) (capW clipW : ℝ) (padId : ℤ)
      (s : LossState) (Fi Ft : ℕ → List (List ℝ)) (V : ℕ)
      (x x' : List (List (List ℝ))) (labels : List (List ℤ))
      (scale : ℝ) (device : ℕ),
      x.length = labels.length → x'.length = labels.length →
      (∀ n, n < labels.length →
        (x.getD n []).length = (labels.getD n []).length) →
      (∀ n, n < labels.length →
        (x'.getD n []).length = (labels.getD n []).length) →
      (∀ m ∈ x, ∀ row ∈ m, row.length = V) →
      (∀ m ∈ x', ∀ row ∈ m, row.length = V) →
      (∀ n, n < labels.length →
        ∀ pos, pos < (labels.getD n []).length →
        (labels.getD n []).getD pos 0 ≠ padId →
        (x.getD n []).getD pos [] = (x'.getD n []).getD pos []) →
      cocaForward env cfg capW clipW padId s Fi Ft x labels scale device
          false =
        cocaForward env cfg capW clipW padId s Fi Ft x' labels scale device
          false) ∧
    (∀ (env : DistEnv) (cfg : ClipCfg) (capW clipW : ℝ) (padId : ℤ)
      (s : LossState) (Fi Ft : ℕ → List (List ℝ))
      (logits : List (List (List ℝ))) (labels : List (List ℤ))
      (scale : ℝ) (device : ℕ) (v : ℝ) (s2 : LossState),
      clipForwardCore env cfg s (some Fi) (some Ft) none none scale device =
        (.ok v, s2) →
      cocaForward env cfg capW clipW padId s Fi Ft logits labels scale
          device false =
        (.ok (.pair (clipW * v)
          (nnCrossEntropyIgnore padId (permute021 logits) labels * capW)),
         s2)) := by
  constructor
  · intro env cfg capW clipW padId s Fi Ft V x x' labels scale device
      hxlen hylen hseq hseq' hV hV' hagree
    have hce := caption_ce_pad_invariant padId V x x' labels hxlen hylen
      hseq hseq' hV hV' hagree
    rw [cocaForward, cocaForward, hce]
  · intro env cfg capW clipW padId s Fi Ft logits labels scale device v s2 h
    simp only [cocaForward, h, Bool.false_eq_true, if_false]

/-- Witness for C7: a one-sample, one-position batch whose single token is
the pad token; the two logit stacks differ only there, and the forwards
coincide; and the returned pair at empty inputs is the weighted pair. -/
theorem coca_caption_pad_masking_witness :
    cocaForward ⟨true, true⟩ ⟨false, false, false, 0, 1, false⟩ 1 1 0
        initialState (fun _ => ([] : List (List ℝ)))
        (fun _ => ([] : List (List ℝ))) [[[(1 : ℝ), 2]]] [[0]] 1 0 false =
      cocaForward ⟨true, true⟩ ⟨false, false, false, 0, 1, false⟩ 1 1 0
        initialState (fun _ => ([] : List (List ℝ)))
        (fun _ => ([] : List (List ℝ))) [[[(3 : ℝ), 4]]] [[0]] 1 0 false ∧
    cocaForward ⟨true, true⟩ ⟨false, false, false, 0, 1, false⟩ 1 1 0
        initialState (fun _ => ([] : List (List ℝ)))
        (fun _ => ([] : List (List ℝ))) [] [] 1 0 false =
      (.ok (.pair (1 * ((crossEntropy [] [] + crossEntropy [] []) / 2))
        (nnCrossEntropyIgnore 0 (permute021 []) [] * 1)), initialState) :=
  ⟨coca_caption_pad_masking.1 ⟨true, true⟩ ⟨false, false, false, 0, 1, false⟩
     1 1 0 initialState (fun _ => ([] : List (List ℝ)))
     (fun _ => ([] : List (List ℝ))) 2 [[[(1 : ℝ), 2]]] [[[(3 : ℝ), 4]]]
     [[0]] 1 0 rfl rfl
     (by intro n hn
         simp only [List.length_singleton] at hn
         have hn0 : n = 0 := by omega
         subst hn0
         rfl)
     (by intro n hn
         simp only [List.length_singleton] at hn
         have hn0 : n = 0 := by omega
         subst hn0
         rfl)
     (by intro m hm row hrow
         simp only [List.mem_singleton] at hm
         subst hm
         simp only [List.mem_singleton] at hrow
         subst hrow
         rfl)
     (by intro m hm row hrow
         simp only [List.mem_singleton] at hm
         subst hm
         simp only [List.mem_singleton] at hrow
         subst hrow
         rfl)
     (by intro n hn pos hpos hne
         simp only [List.length_singleton] at hn
         have hn0 : n = 0 := by omega
         subst hn0
         simp only [List.getD_cons_zero, List.length_singleton] at hpos
         have hp0 : pos = 0 := by omega
         subst hp0
         simp at hne),
   coca_caption_pad_masking.2 ⟨true, true⟩ ⟨false, false, false, 0, 1, false⟩
     1 1 0 initialState (fun _ => ([] : List (List ℝ)))
     (fun _ => ([] : List (List ℝ))) [] [] 1 0
     ((crossEntropy [] [] + crossEntropy [] []) / 2) initialState rfl⟩
